import Mathlib

/-!
Verification of the Bingo backend room engine, settlement arithmetic and
wallet service, shallowly embedded from the JavaScript source.

The repository contains two revisions of the room engine:
the main entry file with the bingo_claim handler and toAnnounce settlement
block, and an unnamed revision with the claim_bingo handler, checkBingo,
callNextNumber and startGame.  Both are embedded below; machine numbers are
modelled as Nat and Int with explicit floors, Maps and Sets as association
lists, and each setTimeout callback as a separate state-transition function
applied when the corresponding timer event fires.
-/

/-! ## Settlement arithmetic (toAnnounce in the main entry file)

The source computes, with winnerCount the length of room.winners:
  systemCut = Math.floor(room.pot * 0.20)
  distributable = Math.max(0, room.pot - systemCut)
  prizePerWinner = winnerCount > 0 ? Math.floor(distributable / winnerCount) : 0
  remainderToSystem = distributable - (prizePerWinner * winnerCount)
  totalSystem = systemCut + remainderToSystem
Pot is a non-negative integer, so these are embedded over Nat; 0.20 = 1/5
exactly, so Math.floor(pot * 0.20) is exact integer division by 5, and the
Math.max(0, _) coincides with truncated Nat subtraction. -/

/-- Math.floor(pot * 0.20): exact integer division by 5. -/
def systemCut (pot : ℕ) : ℕ := pot / 5

/-- Math.max(0, pot - systemCut): Nat subtraction already truncates at 0. -/
def distributable (pot : ℕ) : ℕ := pot - systemCut pot

/-- winnerCount > 0 ? Math.floor(distributable / winnerCount) : 0. -/
def prizePerWinner (pot winnerCount : ℕ) : ℕ :=
  if 0 < winnerCount then distributable pot / winnerCount else 0

/-- distributable - (prizePerWinner * winnerCount). -/
def remainderToSystem (pot winnerCount : ℕ) : ℕ :=
  distributable pot - prizePerWinner pot winnerCount * winnerCount

/-- systemCut + remainderToSystem: everything the house keeps. -/
def totalSystem (pot winnerCount : ℕ) : ℕ :=
  systemCut pot + remainderToSystem pot winnerCount

theorem systemCut_le (pot : ℕ) : systemCut pot ≤ pot :=
  Nat.div_le_self pot 5

theorem prize_mul_le (pot winnerCount : ℕ) :
    prizePerWinner pot winnerCount * winnerCount ≤ distributable pot := by
  unfold prizePerWinner
  split
  · exact Nat.div_mul_le_self (distributable pot) winnerCount
  · simp

/-! ## WalletService (service revision with main/play/coins sub-balances)

updateBalance clamps each touched sub-balance with Math.max(0, old + delta);
processGameBet debits the play sub-balance and records a game_bet
Transaction with the before/after snapshots returned by updateBalance. -/

/-- Snapshot of the three monetary sub-balances, as recorded in
balanceBefore/balanceAfter of a Transaction. -/
structure Balances where
  main : ℤ
  play : ℤ
  coins : ℤ
  deriving DecidableEq, Repr

/-- Persistent wallet state. -/
structure Wallet where
  main : ℤ
  play : ℤ
  coins : ℤ
  gamesWon : ℤ
  deriving DecidableEq, Repr

/-- The updates object passed to updateBalance; a missing field leaves the
corresponding sub-balance untouched. -/
structure BalanceUpdates where
  main : Option ℤ := none
  play : Option ℤ := none
  coins : Option ℤ := none
  gamesWon : Option ℤ := none
  deriving DecidableEq, Repr

/-- Return value of updateBalance: the saved wallet plus the before/after
snapshots. -/
structure UpdateResult where
  wallet : Wallet
  balanceBefore : Balances
  balanceAfter : Balances
  deriving DecidableEq, Repr

/-- WalletService.updateBalance: each defined delta is applied with
Math.max(0, old + delta); gamesWon is incremented without clamping. -/
def updateBalance (wallet : Wallet) (updates : BalanceUpdates) : UpdateResult :=
  let balanceBefore : Balances := ⟨wallet.main, wallet.play, wallet.coins⟩
  let w1 := match updates.main with
    | some d => { wallet with main := max 0 (wallet.main + d) }
    | none => wallet
  let w2 := match updates.play with
    | some d => { w1 with play := max 0 (w1.play + d) }
    | none => w1
  let w3 := match updates.coins with
    | some d => { w2 with coins := max 0 (w2.coins + d) }
    | none => w2
  let w4 := match updates.gamesWon with
    | some d => { w3 with gamesWon := w3.gamesWon + d }
    | none => w3
  { wallet := w4
    balanceBefore := balanceBefore
    balanceAfter := ⟨w4.main, w4.play, w4.coins⟩ }

/-- Transaction kinds recorded by WalletService. -/
inductive TxnType where
  | deposit
  | coinConversion
  | gameBet
  | gameWin
  | withdrawal
  deriving DecidableEq, Repr

/-- An immutable Transaction record (the fields relevant to the ledger
invariant). -/
structure Transaction where
  txnType : TxnType
  amount : ℤ
  balanceBefore : Balances
  balanceAfter : Balances
  deriving DecidableEq, Repr

/-- WalletService.processGameBet: updateBalance with play := -amount, then
one game_bet Transaction built from the update result.  There is no
insufficient-funds check anywhere on this path. -/
def processGameBet (wallet : Wallet) (amount : ℤ) : Wallet × Transaction :=
  let result := updateBalance wallet { play := some (-amount) }
  (result.wallet,
    { txnType := TxnType.gameBet
      amount := -amount
      balanceBefore := result.balanceBefore
      balanceAfter := result.balanceAfter })

/-- WalletService.createWallet: main 0, play 50, coins 1, gamesWon 0. -/
def createWallet : Wallet := ⟨0, 50, 1, 0⟩

/-- All three monetary sub-balances are non-negative. -/
def walletNonneg (w : Wallet) : Prop := 0 ≤ w.main ∧ 0 ≤ w.play ∧ 0 ≤ w.coins

/-- Chaining updateBalance calls, keeping only the saved wallet. -/
def applyUpdates (w : Wallet) (us : List BalanceUpdates) : Wallet :=
  us.foldl (fun acc u => (updateBalance acc u).wallet) w

theorem updateBalance_nonneg (w : Wallet) (u : BalanceUpdates)
    (h : walletNonneg w) : walletNonneg (updateBalance w u).wallet := by
  obtain ⟨hm, hp, hc⟩ := h
  unfold updateBalance walletNonneg
  rcases u with ⟨um, up, uc, ug⟩
  cases um <;> cases up <;> cases uc <;> cases ug <;>
    simp_all [le_max_iff, le_refl, true_or]

/-! ## Claims about settlement and the wallet -/

/-- C1: for every non-negative integer pot and every winner count, the
settlement block computes houseCut = floor(pot/5), distributable =
pot - houseCut, prizePerWinner = 0 for an empty winner list and
floor(distributable / winnerCount) otherwise, the division remainder goes to
the house, and pot = totalSystem + prizePerWinner * winnerCount exactly. -/
theorem settlement_exact (pot winnerCount : ℕ) :
    prizePerWinner pot 0 = 0
    ∧ (0 < winnerCount → prizePerWinner pot winnerCount = distributable pot / winnerCount)
    ∧ remainderToSystem pot winnerCount + prizePerWinner pot winnerCount * winnerCount
        = distributable pot
    ∧ distributable pot + systemCut pot = pot
    ∧ totalSystem pot winnerCount + prizePerWinner pot winnerCount * winnerCount = pot := by
  refine ⟨by simp [prizePerWinner], fun h => by simp [prizePerWinner, h], ?_, ?_, ?_⟩
  · have := prize_mul_le pot winnerCount
    unfold remainderToSystem
    omega
  · have := systemCut_le pot
    unfold distributable
    omega
  · have h1 := prize_mul_le pot winnerCount
    have h2 := systemCut_le pot
    unfold totalSystem remainderToSystem distributable at *
    omega

/-- Witness for settlement_exact at the spec scenario pot = 31 with two
winners: houseCut 6, distributable 25, prizePerWinner 12, houseTake 7,
and 31 = 7 + 12 * 2. -/
theorem settlement_exact_witness :
    systemCut 31 = 6 ∧ distributable 31 = 25 ∧ prizePerWinner 31 2 = 12
    ∧ totalSystem 31 2 = 7 ∧ totalSystem 31 2 + prizePerWinner 31 2 * 2 = 31 := by
  have h := (settlement_exact 31 2).2.2.2.2
  exact ⟨by decide, by decide, by decide, by decide, h⟩

/-- C2: processGameBet with amount 10 against a wallet whose play balance is
5 does not fail; it clamps play from 5 to 0 (a partial debit) and still
produces a game_bet Transaction, whose recorded amount -10 does not even
match the recorded balance movement. -/
theorem gameBet_overdraft_clamps :
    (processGameBet ⟨0, 5, 1, 0⟩ 10).1.play = 0
    ∧ (processGameBet ⟨0, 5, 1, 0⟩ 10).2.txnType = TxnType.gameBet
    ∧ (processGameBet ⟨0, 5, 1, 0⟩ 10).2.amount = -10
    ∧ (processGameBet ⟨0, 5, 1, 0⟩ 10).2.balanceBefore.play = 5
    ∧ (processGameBet ⟨0, 5, 1, 0⟩ 10).2.balanceAfter.play
        ≠ (processGameBet ⟨0, 5, 1, 0⟩ 10).2.balanceBefore.play
            + (processGameBet ⟨0, 5, 1, 0⟩ 10).2.amount := by
  refine ⟨by decide, by decide, by decide, by decide, by decide⟩

/-- C9: updateBalance clamps every touched sub-balance at zero (a delta that
would drive it negative yields exactly zero), it preserves non-negativity of
all three sub-balances, and consequently no sequence of updates starting
from a freshly created wallet ever produces a negative sub-balance. -/
theorem updateBalance_clamps_nonneg :
    (∀ (w : Wallet) (u : BalanceUpdates),
      walletNonneg w → walletNonneg (updateBalance w u).wallet)
    ∧ (∀ (w : Wallet) (d : ℤ), w.main + d < 0 →
      (updateBalance w { main := some d }).wallet.main = 0)
    ∧ (∀ (w : Wallet) (d : ℤ), w.play + d < 0 →
      (updateBalance w { play := some d }).wallet.play = 0)
    ∧ (∀ (w : Wallet) (d : ℤ), w.coins + d < 0 →
      (updateBalance w { coins := some d }).wallet.coins = 0)
    ∧ (∀ us : List BalanceUpdates, walletNonneg (applyUpdates createWallet us)) := by
  refine ⟨updateBalance_nonneg, ?_, ?_, ?_, ?_⟩
  · intro w d h
    simp [updateBalance, max_eq_left_iff]
    omega
  · intro w d h
    simp [updateBalance, max_eq_left_iff]
    omega
  · intro w d h
    simp [updateBalance, max_eq_left_iff]
    omega
  · intro us
    have key : ∀ (l : List BalanceUpdates) (w : Wallet),
        walletNonneg w → walletNonneg (applyUpdates w l) := by
      intro l
      induction l with
      | nil => intro w hw; exact hw
      | cons u rest ih =>
          intro w hw
          exact ih _ (updateBalance_nonneg w u hw)
    exact key us createWallet (by unfold createWallet walletNonneg; refine ⟨by decide, by decide, by decide⟩)

/-- Witness for updateBalance_clamps_nonneg: the play clamp at a concrete
overdraft, and non-negativity after a concrete debit sequence. -/
theorem updateBalance_clamps_nonneg_witness :
    (5 : ℤ) + (-10) < 0
    ∧ (updateBalance ⟨0, 5, 1, 0⟩ { play := some (-10) }).wallet.play = 0
    ∧ walletNonneg (applyUpdates createWallet [{ play := some (-60) }, { main := some 7 }]) := by
  refine ⟨by decide, updateBalance_clamps_nonneg.2.2.1 ⟨0, 5, 1, 0⟩ (-10) (by decide),
    updateBalance_clamps_nonneg.2.2.2.2 [{ play := some (-60) }, { main := some 7 }]⟩

/-! ## Win detector (checkBingo, unnamed engine revision)

The source checks each of the five rows with cartella[i].every, each of the
five columns with cartella.every over row[j], and the two diagonals with
cartella.every over (row, i); a cell passes when calledNumbers.includes its
value.  No cell is exempt: the detector treats the center like any other
cell. -/

/-- checkBingo(cartella, calledNumbers). -/
def checkBingo (cartella : List (List ℕ)) (calledNumbers : List ℕ) : Bool :=
  ((List.range 5).any fun i => (cartella.getD i []).all fun num => calledNumbers.contains num)
  || ((List.range 5).any fun j => cartella.all fun row => calledNumbers.contains (row.getD j 0))
  || (cartella.enum.all fun p => calledNumbers.contains (p.2.getD p.1 0))
  || (cartella.enum.all fun p => calledNumbers.contains (p.2.getD (4 - p.1) 0))

/-- Cell of a card at row i, column j (0 outside the grid). -/
def cellOf (cartella : List (List ℕ)) (i j : ℕ) : ℕ :=
  (cartella.getD i []).getD j 0

/-- A full row, full column, or full diagonal whose every cell has been
called, with no exemption for any cell. -/
def winByLines (cartella : List (List ℕ)) (called : List ℕ) : Prop :=
  (∃ i < 5, ∀ j < 5, cellOf cartella i j ∈ called)
  ∨ (∃ j < 5, ∀ i < 5, cellOf cartella i j ∈ called)
  ∨ (∀ i < 5, cellOf cartella i i ∈ called)
  ∨ (∀ i < 5, cellOf cartella i (4 - i) ∈ called)

/-- Modelled from the spec: a win is any full row, column, or diagonal in
which every non-free cell's number has been called, the free center cell
(row 2, column 2) counting as always satisfied. -/
def specIsWinner (cartella : List (List ℕ)) (called : List ℕ) : Prop :=
  (∃ i < 5, ∀ j < 5, (i = 2 ∧ j = 2) ∨ cellOf cartella i j ∈ called)
  ∨ (∃ j < 5, ∀ i < 5, (i = 2 ∧ j = 2) ∨ cellOf cartella i j ∈ called)
  ∨ (∀ i < 5, i = 2 ∨ cellOf cartella i i ∈ called)
  ∨ (∀ i < 5, (i = 2 ∧ 4 - i = 2) ∨ cellOf cartella i (4 - i) ∈ called)

theorem forall_mem_iff_getD {α : Type} (l : List α) (d : α) (n : ℕ)
    (P : α → Prop) (h : l.length = n) :
    (∀ x ∈ l, P x) ↔ ∀ i < n, P (l.getD i d) := by
  constructor
  · intro hall i hi
    have hi2 : i < l.length := by omega
    rw [List.getD_eq_getElem l d hi2]
    exact hall _ (List.getElem_mem hi2)
  · intro hidx x hx
    obtain ⟨i, hi, rfl⟩ := List.mem_iff_getElem.mp hx
    have := hidx i (by omega)
    rwa [List.getD_eq_getElem l d hi] at this

theorem range_any_iff (n : ℕ) (f : ℕ → Bool) :
    ((List.range n).any f = true) ↔ ∃ i < n, f i = true := by
  rw [List.any_eq_true]
  simp [List.mem_range]

theorem enum_all_iff (l : List (List ℕ)) (f : ℕ × List ℕ → Bool) :
    (l.enum.all f = true) ↔ ∀ i (h : i < l.length), f (i, l[i]) = true := by
  rw [List.all_eq_true]
  constructor
  · intro hall i hi
    have hi2 : i < l.enum.length := by
      rw [List.enum_length]; exact hi
    have hm : (i, l[i]) ∈ l.enum := by
      rw [← List.getElem_enum l i hi2]
      exact List.getElem_mem hi2
    exact hall _ hm
  · intro hidx x hx
    obtain ⟨i, hi, rfl⟩ := List.mem_iff_getElem.mp hx
    rw [List.getElem_enum l i hi]
    exact hidx i (by rw [← List.enum_length]; exact hi)

theorem getD_row_length (cartella : List (List ℕ)) (i : ℕ)
    (hlen : cartella.length = 5) (hrows : ∀ row ∈ cartella, row.length = 5)
    (hi : i < 5) : (cartella.getD i []).length = 5 := by
  have hi2 : i < cartella.length := by omega
  rw [List.getD_eq_getElem cartella [] hi2]
  exact hrows _ (List.getElem_mem hi2)

theorem checkBingo_rows_clause (cartella : List (List ℕ)) (called : List ℕ)
    (hlen : cartella.length = 5) (hrows : ∀ row ∈ cartella, row.length = 5) :
    (((List.range 5).any fun i => (cartella.getD i []).all fun num => called.contains num) = true)
    ↔ ∃ i < 5, ∀ j < 5, cellOf cartella i j ∈ called := by
  rw [range_any_iff]
  refine exists_congr fun i => and_congr_right fun hi => ?_
  rw [List.all_eq_true]
  have hrl := getD_row_length cartella i hlen hrows hi
  rw [forall_mem_iff_getD (cartella.getD i []) 0 5 _ hrl]
  refine forall_congr' fun j => imp_congr_right fun hj => ?_
  simp [cellOf]

theorem checkBingo_cols_clause (cartella : List (List ℕ)) (called : List ℕ)
    (hlen : cartella.length = 5) :
    (((List.range 5).any fun j => cartella.all fun row => called.contains (row.getD j 0)) = true)
    ↔ ∃ j < 5, ∀ i < 5, cellOf cartella i j ∈ called := by
  rw [range_any_iff]
  refine exists_congr fun j => and_congr_right fun hj => ?_
  rw [List.all_eq_true]
  rw [forall_mem_iff_getD cartella [] 5 _ hlen]
  refine forall_congr' fun i => imp_congr_right fun hi => ?_
  simp [cellOf]

theorem checkBingo_diag_clause (cartella : List (List ℕ)) (called : List ℕ)
    (hlen : cartella.length = 5) :
    ((cartella.enum.all fun p => called.contains (p.2.getD p.1 0)) = true)
    ↔ ∀ i < 5, cellOf cartella i i ∈ called := by
  rw [enum_all_iff]
  constructor
  · intro hall i hi
    have hi2 : i < cartella.length := by omega
    have := hall i hi2
    simp only at this
    rw [cellOf, List.getD_eq_getElem cartella [] hi2]
    simpa using this
  · intro hidx i hi
    have hi5 : i < 5 := by omega
    have := hidx i hi5
    rw [cellOf, List.getD_eq_getElem cartella [] hi] at this
    simpa using this

theorem checkBingo_adiag_clause (cartella : List (List ℕ)) (called : List ℕ)
    (hlen : cartella.length = 5) :
    ((cartella.enum.all fun p => called.contains (p.2.getD (4 - p.1) 0)) = true)
    ↔ ∀ i < 5, cellOf cartella i (4 - i) ∈ called := by
  rw [enum_all_iff]
  constructor
  · intro hall i hi
    have hi2 : i < cartella.length := by omega
    have := hall i hi2
    simp only at this
    rw [cellOf, List.getD_eq_getElem cartella [] hi2]
    simpa using this
  · intro hidx i hi
    have hi5 : i < 5 := by omega
    have := hidx i hi5
    rw [cellOf, List.getD_eq_getElem cartella [] hi] at this
    simpa using this

theorem checkBingo_iff_winByLines (cartella : List (List ℕ)) (called : List ℕ)
    (hlen : cartella.length = 5) (hrows : ∀ row ∈ cartella, row.length = 5) :
    checkBingo cartella called = true ↔ winByLines cartella called := by
  unfold checkBingo winByLines
  simp only [Bool.or_eq_true]
  rw [checkBingo_rows_clause cartella called hlen hrows,
    checkBingo_cols_clause cartella called hlen,
    checkBingo_diag_clause cartella called hlen,
    checkBingo_adiag_clause cartella called hlen]
  constructor
  · rintro (((h | h) | h) | h)
    · exact Or.inl h
    · exact Or.inr (Or.inl h)
    · exact Or.inr (Or.inr (Or.inl h))
    · exact Or.inr (Or.inr (Or.inr h))
  · rintro (h | h | h | h)
    · exact Or.inl (Or.inl (Or.inl h))
    · exact Or.inl (Or.inl (Or.inr h))
    · exact Or.inl (Or.inr h)
    · exact Or.inr h

/-- A card whose first row is exactly the first five numbers, used as a
concrete winning card in several evaluations. -/
def cardFullRow : List (List ℕ) :=
  [[1, 2, 3, 4, 5], [6, 7, 8, 9, 10], [11, 12, 13, 14, 15],
   [16, 17, 18, 19, 20], [21, 22, 23, 24, 25]]

/-- A card in the main entry file's generateCard layout, with free center 0
and column-banded values. -/
def freeCenterCard : List (List ℕ) :=
  [[1, 16, 31, 46, 61], [2, 17, 32, 47, 62], [3, 18, 0, 48, 63],
   [4, 19, 34, 49, 64], [5, 20, 35, 50, 65]]

/-- C5 (amended): for every well-formed 5x5 card, checkBingo returns true
exactly when some full row, full column, or either full diagonal has every
cell's number — the center included, with no free-cell exemption — present
in calledNumbers; a card missing at least one cell of every such line
returns false. -/
theorem checkBingo_characterization :
    ∀ (cartella : List (List ℕ)) (called : List ℕ),
    cartella.length = 5 → (∀ row ∈ cartella, row.length = 5) →
    (checkBingo cartella called = true ↔ winByLines cartella called)
    ∧ ((∀ i < 5, ∃ j < 5, cellOf cartella i j ∉ called) →
       (∀ j < 5, ∃ i < 5, cellOf cartella i j ∉ called) →
       (∃ i < 5, cellOf cartella i i ∉ called) →
       (∃ i < 5, cellOf cartella i (4 - i) ∉ called) →
       checkBingo cartella called = false) := by
  intro cartella called hlen hrows
  have hiff := checkBingo_iff_winByLines cartella called hlen hrows
  refine ⟨hiff, ?_⟩
  intro hr hc hd ha
  cases htrue : checkBingo cartella called with
  | false => rfl
  | true =>
      exfalso
      rcases hiff.mp htrue with (⟨i, hi, hall⟩ | ⟨j, hj, hall⟩ | hall | hall)
      · obtain ⟨j, hj, hnot⟩ := hr i hi
        exact hnot (hall j hj)
      · obtain ⟨i, hi, hnot⟩ := hc j hj
        exact hnot (hall i hi)
      · obtain ⟨i, hi, hnot⟩ := hd
        exact hnot (hall i hi)
      · obtain ⟨i, hi, hnot⟩ := ha
        exact hnot (hall i hi)

/-- Witness for checkBingo_characterization on a fully-called first row. -/
theorem checkBingo_characterization_witness :
    checkBingo cardFullRow [1, 2, 3, 4, 5] = true
    ∧ winByLines cardFullRow [1, 2, 3, 4, 5] :=
  ⟨by decide,
    (checkBingo_characterization cardFullRow [1, 2, 3, 4, 5]
      (by decide) (by decide)).1.mp (by decide)⟩

/-- C5 counterexample: a card with free center 0 whose middle row is fully
called apart from the center is a winner under the spec's free-center rule,
but checkBingo has no free-cell exemption and returns false, because 0 is
never among the called numbers. -/
theorem checkBingo_freeCenter_counterexample :
    specIsWinner freeCenterCard [3, 18, 48, 63]
    ∧ checkBingo freeCenterCard [3, 18, 48, 63] = false := by
  constructor
  · unfold specIsWinner cellOf freeCenterCard
    decide
  · decide

/-! ## Room engine (unnamed revision: startGame, callNextNumber,
checkWinners, claim_bingo handler, toAnnounce)

Room state keeps the round-scoped fields; the players/cartellas Maps and the
selectedPlayers Set are association lists respectively lists of userIds.
The WalletService.processGameWin credits issued by toAnnounce and the Game
documents it saves are recorded in creditedWins and savedGames so that
settlement effects are observable. Each setTimeout callback (the 2-second
draw pacing, the 30-second registration timer, the 10-second announce
reset) is a separate transition applied when its timer event fires. -/

/-- Room phases: waiting, registration, running, announce. -/
inductive Phase where
  | waiting
  | registration
  | running
  | announce
  deriving DecidableEq, Repr

/-- Round-scoped room state of the unnamed engine revision. -/
structure Room where
  stake : ℕ
  phase : Phase
  selectedPlayers : List ℕ
  calledNumbers : List ℕ
  cartellas : List (ℕ × List (List ℕ))
  winners : List (ℕ × List (List ℕ))
  creditedWins : List (ℕ × ℕ)
  savedGames : ℕ
  deriving DecidableEq, Repr

/-- toAnnounce: set phase to announce; if there are winners, compute
pot = selectedPlayers.size * stake, systemCut = Math.floor(pot * 0.2),
prizePool = pot - systemCut, prizePerWinner = Math.floor(prizePool /
winners.length), issue one processGameWin credit per winner and save one
Game document.  Nothing clears room.winners here; the reset happens in a
separate 10-second timer callback (resetRoom). -/
def toAnnounce (room : Room) : Room :=
  let announced := { room with phase := Phase.announce }
  if 0 < announced.winners.length then
    let pot := announced.selectedPlayers.length * announced.stake
    let cut := pot / 5
    let prizePool := pot - cut
    let prize := prizePool / announced.winners.length
    { announced with
        creditedWins := announced.creditedWins ++ announced.winners.map fun w => (w.1, prize)
        savedGames := announced.savedGames + 1 }
  else announced

/-- The 10-second reset callback scheduled by toAnnounce. -/
def resetRoom (room : Room) : Room :=
  { room with phase := Phase.waiting, selectedPlayers := [], cartellas := [],
              calledNumbers := [], winners := [] }

/-- checkWinners: collect every (userId, cartella) whose cartella passes
checkBingo against calledNumbers; if any, replace room.winners with that
list and run toAnnounce. -/
def checkWinners (room : Room) : Room :=
  let winners := room.cartellas.filter fun p => checkBingo p.2 room.calledNumbers
  if 0 < winners.length then toAnnounce { room with winners := winners } else room

/-- The do-while retry loop of callNextNumber: walk the candidate stream
until a number not already called appears. -/
def drawLoop : List ℕ → List ℕ → Option ℕ
  | [], _ => none
  | c :: cs, called => if called.contains c then drawLoop cs called else some c

/-- callNextNumber: when the phase is no longer running or 75 numbers are
out, run toAnnounce; otherwise draw a fresh number in 1..75 (each candidate
is Math.floor(Math.random() * 75) + 1), append it, and sweep for winners.
The candidate stream rands stands for the successive Math.random draws. -/
def callNextNumber (room : Room) (rands : List ℕ) : Room :=
  if room.phase ≠ Phase.running ∨ 75 ≤ room.calledNumbers.length then
    toAnnounce room
  else
    match drawLoop (rands.map fun r => r % 75 + 1) room.calledNumbers with
    | none => room
    | some number =>
        checkWinners { room with calledNumbers := room.calledNumbers ++ [number] }

/-- startGame: with zero selected players, cancel and go back to waiting;
otherwise enter running, reset calledNumbers and winners, deal one cartella
per selected player, and start calling numbers. -/
def startGame (room : Room) (cards : ℕ → List (List ℕ)) (rands : List ℕ) : Room :=
  if room.selectedPlayers.length = 0 then
    { room with phase := Phase.waiting }
  else
    callNextNumber
      { room with phase := Phase.running, calledNumbers := [], winners := [],
                  cartellas := room.selectedPlayers.map fun u => (u, cards u) }
      rands

/-- The 30-second registration timer: startGame runs only if the room is
still in registration. -/
def registrationTimeout (room : Room) (cards : ℕ → List (List ℕ)) (rands : List ℕ) : Room :=
  if room.phase = Phase.registration then startGame room cards rands else room

/-- claim_bingo handler: only in the running phase, and only when the
claimant holds a cartella that passes checkBingo against the authoritative
calledNumbers, push the winner and end the round via toAnnounce; otherwise
do nothing at all. -/
def claimBingo (room : Room) (userId : ℕ) : Room :=
  if room.phase = Phase.running then
    match List.lookup userId room.cartellas with
    | some cartella =>
        if checkBingo cartella room.calledNumbers then
          toAnnounce { room with winners := room.winners ++ [(userId, cartella)] }
        else room
    | none => room
  else room

/-! ## Room engine (main entry file revision)

This revision keeps winners keyed by the client-supplied cardNumber, counts
clients instead of tracking paid participants, and its registration timer
invokes toRunning unconditionally.  Its bingo_claim handler performs no
phase check and no win validation. -/

/-- JS helper range(n, m) = [n, n+1, ..., m]. -/
def range (n m : ℕ) : List ℕ :=
  (List.range (m - n + 1)).map fun i => n + i

namespace MainJs

/-- Room state of the main entry file revision. -/
structure Room where
  stake : ℕ
  clients : ℕ
  phase : Phase
  called : List ℕ
  pot : ℕ
  winners : List ℕ
  cardById : List (ℕ × List (List ℕ))
  deriving DecidableEq, Repr

/-- toRunning entry actions: fresh round state and pot = stake * clients;
the paced number-calling loop is modelled by calledAfter below. -/
def toRunning (room : Room) : Room :=
  { room with phase := Phase.running, called := [], winners := [],
              pot := room.stake * room.clients, cardById := [] }

/-- The registration timer callback: broadcast registration_closed and run
toRunning unconditionally, with no check on the participant count. -/
def registrationTimeout (room : Room) : Room := toRunning room

/-- The called list after k completed sendNext steps of the toRunning loop:
numbers is shuffle(range(1, 75)) and maybeFinish caps the loop at 20
draws. -/
def calledAfter (numbers : List ℕ) (k : ℕ) : List ℕ :=
  numbers.take (min k 20)

/-- bingo_claim handler: dedupe by the client-supplied cardNumber and push;
there is no phase check and no checkBingo validation. -/
def bingoClaim (room : Room) (cardId : ℕ) : Room :=
  if room.winners.contains cardId then room
  else { room with winners := room.winners ++ [cardId] }

/-- generateCard: columns[c] = shuffle(range(15c+1, 15c+15)).slice(0, 5) and
grid[r][c] = 0 at the center (2,2), otherwise columns[c][r].  The shuffle is
modelled by its output: one arbitrary reordering per column, constrained to
be a permutation in the theorems. -/
def generateCard (shuffles : ℕ → List ℕ) : List (List ℕ) :=
  (List.range 5).map fun r => (List.range 5).map fun c =>
    if r = 2 ∧ c = 2 then 0 else ((shuffles c).take 5).getD r 0

end MainJs

/-! ## Helper lemmas about the engines -/

theorem toAnnounce_spec (r : Room) (h : 0 < r.winners.length) :
    toAnnounce r = { r with
      phase := Phase.announce
      creditedWins := r.creditedWins ++ r.winners.map (fun w =>
        (w.1, prizePerWinner (r.selectedPlayers.length * r.stake) r.winners.length))
      savedGames := r.savedGames + 1 } := by
  have hp : prizePerWinner (r.selectedPlayers.length * r.stake) r.winners.length
      = (r.selectedPlayers.length * r.stake - r.selectedPlayers.length * r.stake / 5)
          / r.winners.length := by
    unfold prizePerWinner distributable systemCut
    rw [if_pos h]
  simp only [toAnnounce]
  rw [if_pos h, hp]

theorem toAnnounce_of_no_winners (r : Room) (h : r.winners = []) :
    toAnnounce r = { r with phase := Phase.announce } := by
  simp only [toAnnounce]
  rw [if_neg (by simp [h])]

theorem toAnnounce_calledNumbers (r : Room) :
    (toAnnounce r).calledNumbers = r.calledNumbers := by
  simp only [toAnnounce]
  split <;> rfl

theorem toAnnounce_winners (r : Room) : (toAnnounce r).winners = r.winners := by
  simp only [toAnnounce]
  split <;> rfl

theorem checkWinners_calledNumbers (r : Room) :
    (checkWinners r).calledNumbers = r.calledNumbers := by
  simp only [checkWinners]
  split
  · rw [toAnnounce_calledNumbers]
  · rfl

theorem drawLoop_spec (cands called : List ℕ) (c : ℕ)
    (h : drawLoop cands called = some c) : c ∈ cands ∧ c ∉ called := by
  induction cands with
  | nil => simp [drawLoop] at h
  | cons x xs ih =>
      by_cases hx : called.contains x
      · rw [drawLoop, if_pos hx] at h
        obtain ⟨h1, h2⟩ := ih h
        exact ⟨List.mem_cons_of_mem x h1, h2⟩
      · rw [drawLoop, if_neg hx] at h
        obtain rfl : x = c := by simpa using h
        refine ⟨List.mem_cons_self x xs, ?_⟩
        simpa using hx

theorem length_range_src (n m : ℕ) : (range n m).length = m - n + 1 := by
  simp [range]

theorem mem_range_src (n m x : ℕ) (hnm : n ≤ m) (hx : x ∈ range n m) :
    n ≤ x ∧ x ≤ m := by
  obtain ⟨i, hi, rfl⟩ := List.mem_map.mp hx
  rw [List.mem_range] at hi
  omega

theorem nodup_range_src (n m : ℕ) : (range n m).Nodup :=
  List.Nodup.map (add_right_injective n) (List.nodup_range _)

theorem getD_map_range {α : Type} (n : ℕ) (f : ℕ → α) (d : α) (i : ℕ)
    (h : i < n) : ((List.range n).map f).getD i d = f i := by
  rw [List.getD_eq_getElem _ d (by simpa using h), List.getElem_map, List.getElem_range]

/-! ## Claims about the room engines -/

/-- The calledNumbers invariant: pairwise-distinct values in 1..75, at most
75 of them. -/
def calledOk (l : List ℕ) : Prop :=
  l.Nodup ∧ (∀ n ∈ l, 1 ≤ n ∧ n ≤ 75) ∧ l.length ≤ 75

/-- C6: callNextNumber preserves the calledNumbers invariant — it only ever
appends one fresh number in 1..75 while fewer than 75 are out — and in the
main entry file revision every prefix of the shuffled 1..75 sequence that
the capped draw loop can produce satisfies the same invariant. -/
theorem calledNumbers_invariant :
    (∀ (room : Room) (rands : List ℕ), calledOk room.calledNumbers →
      calledOk (callNextNumber room rands).calledNumbers)
    ∧ (∀ (numbers : List ℕ) (k : ℕ), numbers.Perm (range 1 75) →
      calledOk (MainJs.calledAfter numbers k)) := by
  constructor
  · intro room rands h
    unfold callNextNumber
    by_cases hg : room.phase ≠ Phase.running ∨ 75 ≤ room.calledNumbers.length
    · rw [if_pos hg, toAnnounce_calledNumbers]
      exact h
    · rw [if_neg hg]
      push_neg at hg
      obtain ⟨hph, hlen75⟩ := hg
      cases hd : drawLoop (rands.map fun r => r % 75 + 1) room.calledNumbers with
      | none => exact h
      | some number =>
          rw [checkWinners_calledNumbers]
          obtain ⟨hmem, hfresh⟩ := drawLoop_spec _ _ _ hd
          obtain ⟨r, hr, rfl⟩ := List.mem_map.mp hmem
          obtain ⟨hnd, hbound, hle⟩ := h
          have hmod : r % 75 < 75 := Nat.mod_lt r (by omega)
          refine ⟨?_, ?_, ?_⟩
          · rw [List.nodup_append]
            refine ⟨hnd, List.nodup_singleton _, ?_⟩
            intro a ha hb
            rw [List.mem_singleton] at hb
            subst hb
            exact hfresh ha
          · intro x hx
            rcases List.mem_append.mp hx with hx | hx
            · exact hbound x hx
            · rw [List.mem_singleton] at hx
              subst hx
              omega
          · rw [List.length_append]
            simp only [List.length_singleton]
            omega
  · intro numbers k hperm
    unfold MainJs.calledAfter
    have hnodup : numbers.Nodup := hperm.nodup_iff.mpr (nodup_range_src 1 75)
    have hlen : numbers.length = 75 := by
      rw [hperm.length_eq, length_range_src]
    refine ⟨List.Nodup.sublist (List.take_sublist _ _) hnodup, ?_, ?_⟩
    · intro x hx
      have hx2 : x ∈ numbers := (List.take_sublist _ _).subset hx
      exact mem_range_src 1 75 x (by omega) (hperm.mem_iff.mp hx2)
    · rw [List.length_take]
      omega

/-- A room in the running phase with nothing called yet. -/
def runningRoom : Room :=
  { stake := 10, phase := Phase.running, selectedPlayers := [1],
    calledNumbers := [], cartellas := [], winners := [], creditedWins := [],
    savedGames := 0 }

/-- Witness for calledNumbers_invariant: one draw from the empty called
list, and a three-draw prefix of the identity shuffle. -/
theorem calledNumbers_invariant_witness :
    calledOk ([] : List ℕ)
    ∧ calledOk (callNextNumber runningRoom [0]).calledNumbers
    ∧ calledOk (MainJs.calledAfter (range 1 75) 3) := by
  have h0 : calledOk ([] : List ℕ) := by
    refine ⟨List.nodup_nil, by simp, by simp⟩
  exact ⟨h0, calledNumbers_invariant.1 runningRoom [0] h0,
    calledNumbers_invariant.2 (range 1 75) 3 (List.Perm.refl _)⟩

/-- A running room where player 1 holds a winning cartella and the 2-second
draw timer is still pending. -/
def announceRaceRoom : Room :=
  { stake := 10, phase := Phase.running, selectedPlayers := [1, 2],
    calledNumbers := [1, 2, 3, 4, 5], cartellas := [(1, cardFullRow)],
    winners := [], creditedWins := [], savedGames := 0 }

/-- C4 (code bug): a valid claim ends the round and settles once — one
credit of 16 to player 1, one saved Game — but when the pending
callNextNumber timer then fires, the phase-is-not-running guard runs
toAnnounce a second time over the still-populated winners list, crediting
player 1 again and saving a second Game document. -/
theorem settlement_double_credit :
    (claimBingo announceRaceRoom 1).creditedWins = [(1, 16)]
    ∧ (claimBingo announceRaceRoom 1).savedGames = 1
    ∧ (claimBingo announceRaceRoom 1).phase = Phase.announce
    ∧ (callNextNumber (claimBingo announceRaceRoom 1) [7]).creditedWins = [(1, 16), (1, 16)]
    ∧ (callNextNumber (claimBingo announceRaceRoom 1) [7]).savedGames = 2 := by
  refine ⟨by decide, by decide, by decide, by decide, by decide⟩

/-- A running room where both players hold winning cartellas. -/
def twoWinnersRoom : Room :=
  { stake := 10, phase := Phase.running, selectedPlayers := [1, 2],
    calledNumbers := [1, 2, 3, 4, 5],
    cartellas := [(1, cardFullRow), (2, cardFullRow)],
    winners := [], creditedWins := [], savedGames := 0 }

/-- C7 counterexample: both players hold valid winning cards, yet after
player 1's claim ends the round, player 2's equally valid claim is a no-op:
the winner list stays [(1, card)] and the full single-winner prize of 16 is
paid to player 1 alone instead of a 2-way split. -/
theorem secondValidClaim_dropped :
    checkBingo cardFullRow twoWinnersRoom.calledNumbers = true
    ∧ (claimBingo (claimBingo twoWinnersRoom 1) 2).winners = [(1, cardFullRow)]
    ∧ (claimBingo (claimBingo twoWinnersRoom 1) 2).creditedWins = [(1, 16)] := by
  refine ⟨by decide, by decide, by decide⟩

/-- C7 (amended): simultaneous winners are honored through the automatic
checkWinners sweep after each called number: every participant whose
cartella passes checkBingo is added to the round's winners, only winning
pairs are added, participants stay pairwise distinct whenever the cartella
keys are, and each winner is credited prizePerWinner computed over the full
winner count.  A manual claim_bingo, by contrast, ends the round at the
first valid claim, so a later claim is rejected (see the counterexample
theorem). -/
theorem checkWinners_honors_all :
    ∀ room : Room, room.winners = [] →
    (∀ u cart, (u, cart) ∈ room.cartellas →
        checkBingo cart room.calledNumbers = true →
        (u, cart) ∈ (checkWinners room).winners)
    ∧ (∀ u cart, (u, cart) ∈ (checkWinners room).winners →
        (u, cart) ∈ room.cartellas ∧ checkBingo cart room.calledNumbers = true)
    ∧ ((room.cartellas.map Prod.fst).Nodup →
        ((checkWinners room).winners.map Prod.fst).Nodup)
    ∧ ((room.cartellas.filter fun p => checkBingo p.2 room.calledNumbers) ≠ [] →
        (checkWinners room).creditedWins = room.creditedWins
          ++ (room.cartellas.filter fun p => checkBingo p.2 room.calledNumbers).map
              (fun w => (w.1, prizePerWinner (room.selectedPlayers.length * room.stake)
                (room.cartellas.filter fun p => checkBingo p.2 room.calledNumbers).length))) := by
  intro room hw
  by_cases hpos :
      0 < (room.cartellas.filter fun p => checkBingo p.2 room.calledNumbers).length
  · have hcw : checkWinners room
        = toAnnounce { room with
            winners := room.cartellas.filter fun p => checkBingo p.2 room.calledNumbers } := by
      unfold checkWinners
      rw [if_pos hpos]
    refine ⟨?_, ?_, ?_, ?_⟩
    · intro u cart hmem hcb
      rw [hcw, toAnnounce_winners]
      exact List.mem_filter.mpr ⟨hmem, hcb⟩
    · intro u cart hmem
      rw [hcw, toAnnounce_winners] at hmem
      exact List.mem_filter.mp hmem
    · intro hnd
      rw [hcw, toAnnounce_winners]
      exact List.Nodup.sublist (List.Sublist.map Prod.fst (List.filter_sublist _)) hnd
    · intro hne
      rw [hcw, toAnnounce_spec _ (by simpa using hpos)]
  · have hempty : (room.cartellas.filter fun p => checkBingo p.2 room.calledNumbers) = [] :=
      List.length_eq_zero.mp (by omega)
    have hcw : checkWinners room = room := by
      unfold checkWinners
      rw [if_neg hpos]
    refine ⟨?_, ?_, ?_, ?_⟩
    · intro u cart hmem hcb
      exfalso
      have hin : (u, cart) ∈ (room.cartellas.filter fun p => checkBingo p.2 room.calledNumbers) :=
        List.mem_filter.mpr ⟨hmem, hcb⟩
      rw [hempty] at hin
      simp at hin
    · intro u cart hmem
      rw [hcw, hw] at hmem
      simp at hmem
    · intro _
      rw [hcw, hw]
      simp
    · intro hne
      exact absurd hempty hne

/-- Witness for checkWinners_honors_all: in the two-winner room, one sweep
adds both players to the winner list. -/
theorem checkWinners_honors_all_witness :
    (1, cardFullRow) ∈ (checkWinners twoWinnersRoom).winners
    ∧ (2, cardFullRow) ∈ (checkWinners twoWinnersRoom).winners :=
  ⟨(checkWinners_honors_all twoWinnersRoom rfl).1 1 cardFullRow (by decide) (by decide),
   (checkWinners_honors_all twoWinnersRoom rfl).1 2 cardFullRow (by decide) (by decide)⟩

/-- C3 (amended): the claim_bingo handler of the unnamed engine revision
accepts a claim only in the running phase and only after checkBingo
validates the claimant's cartella against the authoritative calledNumbers:
a claim whose cartella fails checkBingo, or whose sender holds no cartella,
or that arrives outside running, leaves the room entirely unchanged, and
any claim that changes the room at all was validated.  The bingo_claim
handler of the main entry file, by contrast, performs no validation (see
the counterexample theorem). -/
theorem claimBingo_validated :
    ∀ (room : Room) (u : ℕ),
    (∀ cart, List.lookup u room.cartellas = some cart →
        checkBingo cart room.calledNumbers = false → claimBingo room u = room)
    ∧ (List.lookup u room.cartellas = none → claimBingo room u = room)
    ∧ (room.phase ≠ Phase.running → claimBingo room u = room)
    ∧ (claimBingo room u ≠ room →
        room.phase = Phase.running ∧ ∃ cart,
          List.lookup u room.cartellas = some cart
          ∧ checkBingo cart room.calledNumbers = true) := by
  intro room u
  refine ⟨?_, ?_, ?_, ?_⟩
  · intro cart hl hcb
    by_cases hp : room.phase = Phase.running
    · simp [claimBingo, hp, hl, hcb]
    · simp [claimBingo, hp]
  · intro hl
    by_cases hp : room.phase = Phase.running
    · simp [claimBingo, hp, hl]
    · simp [claimBingo, hp]
  · intro hp
    simp [claimBingo, hp]
  · intro hne
    by_cases hp : room.phase = Phase.running
    · refine ⟨hp, ?_⟩
      cases hl : List.lookup u room.cartellas with
      | none => exact absurd (by simp [claimBingo, hp, hl]) hne
      | some cart =>
          cases hcb : checkBingo cart room.calledNumbers with
          | false => exact absurd (by simp [claimBingo, hp, hl, hcb]) hne
          | true => exact ⟨cart, rfl, hcb⟩
    · exact absurd (by simp [claimBingo, hp]) hne

/-- A running room whose sole player holds a cartella that has not won yet
because nothing has been called. -/
def notYetWonRoom : Room :=
  { stake := 10, phase := Phase.running, selectedPlayers := [1],
    calledNumbers := [], cartellas := [(1, cardFullRow)], winners := [],
    creditedWins := [], savedGames := 0 }

/-- Witness for claimBingo_validated: an invalid claim is a no-op. -/
theorem claimBingo_validated_witness :
    claimBingo notYetWonRoom 1 = notYetWonRoom :=
  (claimBingo_validated notYetWonRoom 1).1 cardFullRow (by decide) (by decide)

/-- A running room of the main entry file revision with card 7 dealt and no
number called. -/
def unvalidatedRoom : MainJs.Room :=
  { stake := 10, clients := 2, phase := Phase.running, called := [],
    pot := 20, winners := [], cardById := [(7, cardFullRow)] }

/-- C3 counterexample: in the main entry file, while the room is running, a
bingo_claim for card 7 with nothing called — a card checkBingo rejects — is
still added to the round's winners. -/
theorem bingoClaim_unvalidated :
    unvalidatedRoom.phase = Phase.running
    ∧ checkBingo cardFullRow unvalidatedRoom.called = false
    ∧ (MainJs.bingoClaim unvalidatedRoom 7).winners = [7] := by
  refine ⟨rfl, by decide, by decide⟩

/-- C8 (amended): in the unnamed engine revision, a registration timeout
with zero paid participants cancels the game and returns the room to
waiting, starting no round; the main entry file's registration timer
instead runs toRunning unconditionally (see the counterexample theorem). -/
theorem zeroPlayers_backToWaiting :
    ∀ (room : Room) (cards : ℕ → List (List ℕ)) (rands : List ℕ),
    room.phase = Phase.registration → room.selectedPlayers = [] →
    registrationTimeout room cards rands = { room with phase := Phase.waiting } := by
  intro room cards rands hp hsp
  unfold registrationTimeout startGame
  rw [if_pos hp, if_pos (by simp [hsp])]

/-- A registration-phase room with no paid participants. -/
def emptyRegRoom : Room :=
  { stake := 10, phase := Phase.registration, selectedPlayers := [],
    calledNumbers := [], cartellas := [], winners := [], creditedWins := [],
    savedGames := 0 }

/-- Witness for zeroPlayers_backToWaiting at the empty registration room. -/
theorem zeroPlayers_backToWaiting_witness :
    registrationTimeout emptyRegRoom (fun _ => cardFullRow) []
      = { emptyRegRoom with phase := Phase.waiting } :=
  zeroPlayers_backToWaiting emptyRegRoom (fun _ => cardFullRow) [] rfl rfl

/-- A registration-phase room of the main entry file revision with zero
clients. -/
def emptyRegRoomJs : MainJs.Room :=
  { stake := 10, clients := 0, phase := Phase.registration, called := [],
    pot := 0, winners := [], cardById := [] }

/-- C8 counterexample: the main entry file's registration timer moves a room
with zero participants straight into the running phase, with pot 0. -/
theorem registrationTimeout_starts_empty :
    emptyRegRoomJs.clients = 0
    ∧ (MainJs.registrationTimeout emptyRegRoomJs).phase = Phase.running
    ∧ (MainJs.registrationTimeout emptyRegRoomJs).pot = 0 := by
  refine ⟨rfl, by decide, by decide⟩

theorem generateCard_cell (shuffles : ℕ → List ℕ) (r c : ℕ)
    (hr : r < 5) (hc : c < 5) :
    cellOf (MainJs.generateCard shuffles) r c
      = if r = 2 ∧ c = 2 then 0 else ((shuffles c).take 5).getD r 0 := by
  unfold cellOf MainJs.generateCard
  rw [getD_map_range 5 _ [] r hr, getD_map_range 5 _ 0 c hc]

/-- C10: whenever each column shuffle is a permutation of its 15-number
band, generateCard yields a grid whose center cell (2,2) is 0, whose every
other cell in column c lies in 15c+1 .. 15c+15, and whose five cells in any
one column are pairwise distinct. -/
theorem generateCard_wellFormed :
    ∀ shuffles : ℕ → List ℕ,
    (∀ c < 5, (shuffles c).Perm (range (15 * c + 1) (15 * c + 15))) →
    cellOf (MainJs.generateCard shuffles) 2 2 = 0
    ∧ (∀ r c, r < 5 → c < 5 → ¬(r = 2 ∧ c = 2) →
        15 * c + 1 ≤ cellOf (MainJs.generateCard shuffles) r c
        ∧ cellOf (MainJs.generateCard shuffles) r c ≤ 15 * c + 15)
    ∧ (∀ c r r', c < 5 → r < 5 → r' < 5 → r ≠ r' →
        cellOf (MainJs.generateCard shuffles) r c
          ≠ cellOf (MainJs.generateCard shuffles) r' c) := by
  intro shuffles hperm
  have hlen : ∀ c, c < 5 → (shuffles c).length = 15 := by
    intro c hc
    rw [(hperm c hc).length_eq, length_range_src]
    omega
  have hcell : ∀ r c, r < 5 → c < 5 → ¬(r = 2 ∧ c = 2) →
      cellOf (MainJs.generateCard shuffles) r c = (shuffles c).getD r 0 := by
    intro r c hr hc hnc
    rw [generateCard_cell shuffles r c hr hc, if_neg hnc]
    have h1 : r < ((shuffles c).take 5).length := by
      rw [List.length_take, hlen c hc]
      omega
    have h2 : r < (shuffles c).length := by
      rw [hlen c hc]
      omega
    rw [List.getD_eq_getElem _ 0 h1, List.getD_eq_getElem _ 0 h2, List.getElem_take]
  have hcenter : cellOf (MainJs.generateCard shuffles) 2 2 = 0 := by
    rw [generateCard_cell shuffles 2 2 (by omega) (by omega), if_pos ⟨rfl, rfl⟩]
  have hbounds : ∀ r c, r < 5 → c < 5 → ¬(r = 2 ∧ c = 2) →
      15 * c + 1 ≤ cellOf (MainJs.generateCard shuffles) r c
      ∧ cellOf (MainJs.generateCard shuffles) r c ≤ 15 * c + 15 := by
    intro r c hr hc hnc
    rw [hcell r c hr hc hnc]
    have h2 : r < (shuffles c).length := by
      rw [hlen c hc]
      omega
    rw [List.getD_eq_getElem _ 0 h2]
    exact mem_range_src (15 * c + 1) (15 * c + 15) _ (by omega)
      ((hperm c hc).mem_iff.mp (List.getElem_mem h2))
  refine ⟨hcenter, hbounds, ?_⟩
  intro c r r' hc hr hr' hne
  by_cases h1 : r = 2 ∧ c = 2
  · obtain ⟨h1r, h1c⟩ := h1
    subst h1r
    subst h1c
    have h2 : ¬(r' = 2 ∧ (2 : ℕ) = 2) := by
      simp only [and_true]
      omega
    have hb := hbounds r' 2 hr' (by omega) h2
    rw [hcenter]
    omega
  · by_cases h2 : r' = 2 ∧ c = 2
    · obtain ⟨h2r, h2c⟩ := h2
      subst h2r
      subst h2c
      have h1b : ¬(r = 2 ∧ (2 : ℕ) = 2) := by
        simp only [and_true]
        omega
      have hb := hbounds r 2 hr (by omega) h1b
      rw [hcenter]
      omega
    · rw [hcell r c hr hc h1, hcell r' c hr' hc h2]
      have hd1 : r < (shuffles c).length := by
        rw [hlen c hc]
        omega
      have hd2 : r' < (shuffles c).length := by
        rw [hlen c hc]
        omega
      rw [List.getD_eq_getElem _ 0 hd1, List.getD_eq_getElem _ 0 hd2]
      have hnd : (shuffles c).Nodup :=
        (hperm c hc).nodup_iff.mpr (nodup_range_src _ _)
      intro heq
      exact hne ((List.Nodup.getElem_inj_iff hnd).mp heq)

/-- Witness for generateCard_wellFormed at the identity shuffle: the center
is 0 and the cell in row 0, column 1 lies in the second band. -/
theorem generateCard_wellFormed_witness :
    cellOf (MainJs.generateCard fun c => range (15 * c + 1) (15 * c + 15)) 2 2 = 0
    ∧ 16 ≤ cellOf (MainJs.generateCard fun c => range (15 * c + 1) (15 * c + 15)) 0 1 := by
  have h := generateCard_wellFormed (fun c => range (15 * c + 1) (15 * c + 15))
    (fun c hc => List.Perm.refl _)
  exact ⟨h.1, (h.2.1 0 1 (by omega) (by omega) (by simp)).1⟩
